import Mathlib

/-!
Verification development for the yugioh repository's scripts.

The Python sources under `scripts/src/` are shallowly embedded here:

* `crawl_cards.py` — the name normalizer (`normalize_name`), the URL pattern
  generator (`get_card_url_patterns`), the page/name validator
  (`validate_card_match`), the numeric field parser (`extract_numeric_value`)
  and the page parser (`parse_card_page`).  HTML documents are modelled by the
  `Document` structure, which records exactly the observations the
  BeautifulSoup navigation in the source can make of a page (its title text,
  the portable-infobox field map and image, the card-table cells and image,
  the class-matched and anchor-wrapped images, and the lore div).
* `run_migrations.py` — the migration ledger and runner
  (`check_migration_applied`, `record_migration`, `run_migration`, the main
  loop `runAllMigrations`).

Characters are treated at the ASCII level (the regex classes and `str.lower`
of the source are modelled by `isWordChar`, `isPySpace` and `Char.toLower`
on ASCII, which agree with Python on ASCII input).
-/

set_option maxHeartbeats 1600000

namespace Yugioh

/-! ### Character-level helpers (crawl_cards.py, regex classes) -/

/-- Model of Python's regex whitespace class restricted to ASCII:
space, tab, newline, carriage return, vertical tab, form feed. -/
def isPySpace (c : Char) : Bool :=
  c = ' ' || c = '\t' || c = '\n' || c = '\r' || c = '\x0b' || c = '\x0c'

/-- Model of Python's regex word class restricted to ASCII:
letters, digits and the underscore. -/
def isWordChar (c : Char) : Bool :=
  c.isAlphanum || c = '_'

/-- One character of the punctuation-removal substitution of `normalize_name`
(crawl_cards.py line 206): characters that are neither word characters nor
whitespace become a space. -/
def punctToSpace (c : Char) : Char :=
  if isWordChar c || isPySpace c then c else ' '

/-- Model of the whitespace-collapsing substitution of `normalize_name`
(crawl_cards.py line 208): every maximal run of whitespace characters is
replaced by a single space. -/
def collapseWs : List Char → List Char
  | [] => []
  | c :: rest =>
    if isPySpace c then
      match rest with
      | [] => [' ']
      | d :: _ => if isPySpace d then collapseWs rest else ' ' :: collapseWs rest
    else c :: collapseWs rest

/-- Drop trailing whitespace (the right half of Python's `str.strip`). -/
def dropTrailWs : List Char → List Char
  | [] => []
  | c :: rest =>
    match dropTrailWs rest with
    | [] => if isPySpace c then [] else [c]
    | d :: t => c :: d :: t

/-- Model of Python's `str.strip()`: remove leading and trailing whitespace. -/
def pyStrip (l : List Char) : List Char :=
  dropTrailWs (l.dropWhile isPySpace)

/-- Character-list core of `normalize_name` (crawl_cards.py lines 195-209):
lowercase, replace non-word non-space characters by spaces, collapse
whitespace runs to a single space, strip. -/
def normChars (l : List Char) : List Char :=
  pyStrip (collapseWs ((l.map Char.toLower).map punctToSpace))

/-- `normalize_name` (crawl_cards.py lines 195-209). -/
def normalize_name (name : String) : String :=
  String.mk (normChars name.toList)

/-! ### Facts about `Char.toLower` (ASCII) -/

theorem charToNat_ofNat (m : Nat) (h : m.isValidChar) :
    (Char.ofNat m).toNat = m := by
  simp [Char.ofNat, h, Char.ofNatAux, Char.toNat, UInt32.toNat]

theorem toLower_idem (c : Char) : c.toLower.toLower = c.toLower := by
  unfold Char.toLower
  by_cases h : c.toNat ≥ 65 ∧ c.toNat ≤ 90
  · rw [if_pos h]
    have hvalid : (c.toNat + 32).isValidChar := by
      unfold Nat.isValidChar
      left
      omega
    have hv : (Char.ofNat (c.toNat + 32)).toNat = c.toNat + 32 :=
      charToNat_ofNat _ hvalid
    rw [if_neg]
    rw [hv]
    omega
  · rw [if_neg h, if_neg h]

/-! ### Normalized-form invariant and idempotence of `normalize_name` -/

/-- Characters that can appear in the output of `normChars`: a single space,
or a word character fixed by lowercasing. -/
def GoodChar (c : Char) : Prop :=
  c = ' ' ∨ (isWordChar c = true ∧ c.toLower = c)

theorem wordChar_not_pySpace {c : Char} (h : isWordChar c = true) :
    isPySpace c = false := by
  cases hs : isPySpace c
  · rfl
  · have : ((((c = ' ' ∨ c = '\t') ∨ c = '\n') ∨ c = '\x0d') ∨ c = '\x0b') ∨ c = '\x0c' := by
      simpa [isPySpace] using hs
    rcases this with ((((rfl | rfl) | rfl) | rfl) | rfl) | rfl <;> exact absurd h (by decide)

theorem goodChar_punct_fix {c : Char} (h : GoodChar c) : punctToSpace c = c := by
  rcases h with rfl | ⟨hw, _⟩
  · decide
  · simp [punctToSpace, hw]

theorem goodChar_lower_fix {c : Char} (h : GoodChar c) : c.toLower = c := by
  rcases h with rfl | ⟨_, hl⟩
  · decide
  · exact hl

theorem goodChar_not_pySpace {c : Char} (h : GoodChar c) (hne : c ≠ ' ') :
    isPySpace c = false := by
  rcases h with rfl | ⟨hw, _⟩
  · exact absurd rfl hne
  · exact wordChar_not_pySpace hw

theorem map_id_of_fix {f : Char → Char} {l : List Char}
    (h : ∀ c ∈ l, f c = c) : l.map f = l := by
  induction l with
  | nil => rfl
  | cons a rest ih =>
    simp only [List.map_cons]
    rw [h a (by simp), ih (fun c hc => h c (by simp [hc]))]

/-! Equation lemmas for `collapseWs`. -/

theorem collapseWs_nil : collapseWs [] = [] := rfl

theorem collapseWs_singleton_space {a : Char} (ha : isPySpace a = true) :
    collapseWs [a] = [' '] := by
  simp [collapseWs, ha]

theorem collapseWs_space_space {a d : Char} {t : List Char}
    (ha : isPySpace a = true) (hd : isPySpace d = true) :
    collapseWs (a :: d :: t) = collapseWs (d :: t) := by
  simp [collapseWs, ha, hd]

theorem collapseWs_space_word {a d : Char} {t : List Char}
    (ha : isPySpace a = true) (hd : isPySpace d = false) :
    collapseWs (a :: d :: t) = ' ' :: collapseWs (d :: t) := by
  simp [collapseWs, ha, hd]

theorem collapseWs_cons_word {a : Char} {l : List Char}
    (ha : isPySpace a = false) : collapseWs (a :: l) = a :: collapseWs l := by
  simp [collapseWs, ha]

theorem mem_collapseWs {c : Char} : ∀ {l : List Char},
    c ∈ collapseWs l → c = ' ' ∨ (c ∈ l ∧ isPySpace c = false)
  | [], h => by simp [collapseWs_nil] at h
  | a :: rest, h => by
    cases ha : isPySpace a with
    | true =>
      cases rest with
      | nil =>
        rw [collapseWs_singleton_space ha] at h
        simp at h
        exact Or.inl h
      | cons d t =>
        cases hd : isPySpace d with
        | true =>
          rw [collapseWs_space_space ha hd] at h
          rcases mem_collapseWs h with h' | ⟨hm, hns⟩
          · exact Or.inl h'
          · exact Or.inr ⟨by simp [hm], hns⟩
        | false =>
          rw [collapseWs_space_word ha hd] at h
          rcases List.mem_cons.mp h with rfl | h'
          · exact Or.inl rfl
          · rcases mem_collapseWs h' with h'' | ⟨hm, hns⟩
            · exact Or.inl h''
            · exact Or.inr ⟨by simp [hm], hns⟩
    | false =>
      rw [collapseWs_cons_word ha] at h
      rcases List.mem_cons.mp h with rfl | h'
      · exact Or.inr ⟨by simp, ha⟩
      · rcases mem_collapseWs h' with h'' | ⟨hm, hns⟩
        · exact Or.inl h''
        · exact Or.inr ⟨by simp [hm], hns⟩

/-- The head of a collapsed list that starts with a non-space character. -/
theorem collapseWs_head_word {d : Char} {t : List Char}
    (hd : isPySpace d = false) : (collapseWs (d :: t)).head? = some d := by
  rw [collapseWs_cons_word hd]
  rfl

/-- No two adjacent whitespace characters survive `collapseWs`. -/
theorem chain'_collapseWs : ∀ l : List Char,
    (collapseWs l).Chain' (fun a b => ¬(isPySpace a = true ∧ isPySpace b = true))
  | [] => by simp [collapseWs_nil]
  | a :: rest => by
    cases ha : isPySpace a with
    | true =>
      cases rest with
      | nil =>
        rw [collapseWs_singleton_space ha]
        exact List.chain'_singleton _
      | cons d t =>
        cases hd : isPySpace d with
        | true =>
          rw [collapseWs_space_space ha hd]
          exact chain'_collapseWs (d :: t)
        | false =>
          rw [collapseWs_space_word ha hd]
          rw [List.chain'_cons']
          refine ⟨?_, chain'_collapseWs (d :: t)⟩
          intro y hy
          rw [collapseWs_head_word hd] at hy
          simp at hy
          subst hy
          simp [hd]
    | false =>
      rw [collapseWs_cons_word ha]
      rw [List.chain'_cons']
      refine ⟨?_, chain'_collapseWs rest⟩
      intro y _
      simp [ha]

theorem dropWhile_head_not {p : Char → Bool} : ∀ {l : List Char} {c t},
    l.dropWhile p = c :: t → p c = false
  | [], c, t, h => by simp at h
  | a :: rest, c, t, h => by
    cases ha : p a with
    | true =>
      rw [List.dropWhile_cons, if_pos ha] at h
      exact dropWhile_head_not h
    | false =>
      rw [List.dropWhile_cons, if_neg (by simp [ha])] at h
      cases h
      exact ha

theorem mem_dropWhile {p : Char → Bool} : ∀ {l : List Char} {c},
    c ∈ l.dropWhile p → c ∈ l
  | [], c, h => by simp at h
  | a :: rest, c, h => by
    cases ha : p a with
    | true =>
      rw [List.dropWhile_cons, if_pos ha] at h
      exact List.mem_cons_of_mem _ (mem_dropWhile h)
    | false =>
      rw [List.dropWhile_cons, if_neg (by simp [ha])] at h
      exact h

theorem chain'_dropWhile {R : Char → Char → Prop} {p : Char → Bool} :
    ∀ {l : List Char}, l.Chain' R → (l.dropWhile p).Chain' R
  | [], h => h
  | a :: rest, h => by
    cases ha : p a with
    | true =>
      rw [List.dropWhile_cons, if_pos ha]
      exact chain'_dropWhile (List.chain'_cons'.mp h).2
    | false =>
      rw [List.dropWhile_cons, if_neg (by simp [ha])]
      exact h

/-! Equation lemmas for `dropTrailWs`. -/

theorem dropTrailWs_cons_nil {a : Char} {rest : List Char}
    (hr : dropTrailWs rest = []) :
    dropTrailWs (a :: rest) = if isPySpace a then [] else [a] := by
  simp [dropTrailWs, hr]

theorem dropTrailWs_cons_cons {a d : Char} {rest t : List Char}
    (hr : dropTrailWs rest = d :: t) :
    dropTrailWs (a :: rest) = a :: d :: t := by
  simp [dropTrailWs, hr]

theorem mem_dropTrailWs : ∀ {l : List Char} {c}, c ∈ dropTrailWs l → c ∈ l
  | [], c, h => by simp [dropTrailWs] at h
  | a :: rest, c, h => by
    cases hr : dropTrailWs rest with
    | nil =>
      rw [dropTrailWs_cons_nil hr] at h
      cases hsp : isPySpace a with
      | true => simp [hsp] at h
      | false =>
        rw [if_neg (by simp [hsp])] at h
        simp at h
        simp [h]
    | cons d t =>
      rw [dropTrailWs_cons_cons hr] at h
      rcases List.mem_cons.mp h with rfl | h'
      · simp
      · have : c ∈ dropTrailWs rest := by
          rw [hr]
          exact h'
        exact List.mem_cons_of_mem _ (mem_dropTrailWs this)

theorem dropTrailWs_head : ∀ {l : List Char} {c t},
    dropTrailWs l = c :: t → ∃ t', l = c :: t'
  | [], c, t, h => by simp [dropTrailWs] at h
  | a :: rest, c, t, h => by
    cases hr : dropTrailWs rest with
    | nil =>
      rw [dropTrailWs_cons_nil hr] at h
      cases hsp : isPySpace a with
      | true => simp [hsp] at h
      | false =>
        rw [if_neg (by simp [hsp])] at h
        cases h
        exact ⟨rest, rfl⟩
    | cons d t0 =>
      rw [dropTrailWs_cons_cons hr] at h
      cases h
      exact ⟨rest, rfl⟩

theorem chain'_dropTrailWs {R : Char → Char → Prop} :
    ∀ {l : List Char}, l.Chain' R → (dropTrailWs l).Chain' R
  | [], h => h
  | a :: rest, h => by
    cases hr : dropTrailWs rest with
    | nil =>
      rw [dropTrailWs_cons_nil hr]
      cases hsp : isPySpace a with
      | true => simp [hsp]
      | false =>
        rw [if_neg (by simp [hsp])]
        exact List.chain'_singleton _
    | cons d t =>
      rw [dropTrailWs_cons_cons hr]
      rw [List.chain'_cons']
      constructor
      · intro y hy
        simp at hy
        subst hy
        obtain ⟨t', ht'⟩ := dropTrailWs_head hr
        subst ht'
        exact (List.chain'_cons'.mp h).1 d (by simp)
      · rw [← hr]
        exact chain'_dropTrailWs (List.chain'_cons'.mp h).2

/-- The last character surviving `dropTrailWs` is not whitespace. -/
theorem dropTrailWs_getLast : ∀ {l : List Char} {c},
    (dropTrailWs l).getLast? = some c → isPySpace c = false
  | [], c, h => by simp [dropTrailWs] at h
  | a :: rest, c, h => by
    cases hr : dropTrailWs rest with
    | nil =>
      rw [dropTrailWs_cons_nil hr] at h
      cases hsp : isPySpace a with
      | true => simp [hsp] at h
      | false =>
        rw [if_neg (by simp [hsp])] at h
        simp at h
        subst h
        exact hsp
    | cons d t =>
      rw [dropTrailWs_cons_cons hr, List.getLast?_cons_cons] at h
      rw [← hr] at h
      exact dropTrailWs_getLast h

theorem dropTrailWs_eq_self : ∀ {l : List Char},
    (∀ c, l.getLast? = some c → isPySpace c = false) → dropTrailWs l = l
  | [], _ => rfl
  | a :: rest, h => by
    cases rest with
    | nil =>
      have ha : isPySpace a = false := h a (by simp)
      have h0 : dropTrailWs ([] : List Char) = [] := rfl
      rw [dropTrailWs_cons_nil h0, if_neg (by simp [ha])]
    | cons b t =>
      have hr : dropTrailWs (b :: t) = b :: t := by
        refine dropTrailWs_eq_self ?_
        intro c hc
        refine h c ?_
        rw [List.getLast?_cons_cons]
        exact hc
      rw [dropTrailWs_cons_cons hr]

/-- `collapseWs` is the identity on lists whose characters are good, with no
two adjacent spaces and no trailing space. -/
theorem collapseWs_eq_self : ∀ {l : List Char},
    (∀ c ∈ l, GoodChar c) →
    l.Chain' (fun a b => ¬(a = ' ' ∧ b = ' ')) →
    (∀ c, l.getLast? = some c → c ≠ ' ') →
    collapseWs l = l
  | [], _, _, _ => rfl
  | a :: rest, hmem, hch, hlast => by
    by_cases ha : a = ' '
    · subst ha
      cases rest with
      | nil => exact absurd (hlast ' ' (by simp)) (by simp)
      | cons d t =>
        have hd : d ≠ ' ' := by
          intro hd
          exact (List.chain'_cons'.mp hch).1 d (by simp) ⟨rfl, hd⟩
        have hdns : isPySpace d = false :=
          goodChar_not_pySpace (hmem d (by simp)) hd
        rw [collapseWs_space_word (by decide) hdns]
        congr 1
        refine collapseWs_eq_self (fun c hc => hmem c (by simp [hc]))
          (List.chain'_cons'.mp hch).2 ?_
        intro c hc
        refine hlast c ?_
        rw [List.getLast?_cons_cons]
        exact hc
    · have hans : isPySpace a = false :=
        goodChar_not_pySpace (hmem a (by simp)) ha
      rw [collapseWs_cons_word hans]
      congr 1
      cases rest with
      | nil => rfl
      | cons b t =>
        refine collapseWs_eq_self (fun c hc => hmem c (by simp [hc]))
          (List.chain'_cons'.mp hch).2 ?_
        intro c hc
        refine hlast c ?_
        rw [List.getLast?_cons_cons]
        exact hc

theorem getLast?_mem_self : ∀ {l : List Char} {c}, l.getLast? = some c → c ∈ l
  | [], c, h => by simp at h
  | [a], c, h => by
    simp at h
    simp [h]
  | a :: b :: t, c, h => by
    rw [List.getLast?_cons_cons] at h
    exact List.mem_cons_of_mem _ (getLast?_mem_self h)

/-- Every character of a normalized name is a space or a lowercase-fixed
word character. -/
theorem normChars_good {l : List Char} : ∀ c ∈ normChars l, GoodChar c := by
  intro c hc
  have hc1 : c ∈ collapseWs ((l.map Char.toLower).map punctToSpace) :=
    mem_dropWhile (mem_dropTrailWs hc)
  rcases mem_collapseWs hc1 with rfl | ⟨hm, hns⟩
  · exact Or.inl rfl
  · rw [List.mem_map] at hm
    obtain ⟨x, hx1, hx2⟩ := hm
    rw [List.mem_map] at hx1
    obtain ⟨y, _, hy⟩ := hx1
    have hcp : c = punctToSpace (Char.toLower y) := by
      rw [← hx2, ← hy]
    by_cases hcond : (isWordChar (Char.toLower y) || isPySpace (Char.toLower y)) = true
    · have hceq : c = Char.toLower y := by
        rw [hcp]
        simp [punctToSpace, hcond]
      rcases Bool.or_eq_true_iff.mp hcond with hw | hs
      · refine Or.inr ⟨by rw [hceq]; exact hw, ?_⟩
        rw [hceq]
        exact toLower_idem y
      · rw [← hceq] at hs
        rw [hs] at hns
        exact absurd hns (by simp)
    · left
      rw [hcp]
      simp only [punctToSpace]
      rw [if_neg hcond]

theorem normChars_chain {l : List Char} :
    (normChars l).Chain' (fun a b => ¬(a = ' ' ∧ b = ' ')) := by
  have h0 := chain'_collapseWs ((l.map Char.toLower).map punctToSpace)
  have h1 := h0.imp (S := fun a b => ¬(a = ' ' ∧ b = ' '))
    (fun a b hab ⟨ha, hb⟩ => hab ⟨by rw [ha]; rfl, by rw [hb]; rfl⟩)
  exact chain'_dropTrailWs (chain'_dropWhile h1)

theorem normChars_head {l : List Char} : ∀ c, (normChars l).head? = some c → c ≠ ' ' := by
  intro c hc
  cases hn : normChars l with
  | nil => rw [hn] at hc; simp at hc
  | cons a t =>
    rw [hn] at hc
    simp at hc
    subst hc
    obtain ⟨t', ht'⟩ := dropTrailWs_head hn
    have := dropWhile_head_not ht'
    intro hsp
    rw [hsp] at this
    exact absurd this (by decide)

theorem normChars_getLast {l : List Char} :
    ∀ c, (normChars l).getLast? = some c → c ≠ ' ' := by
  intro c hc
  have := dropTrailWs_getLast hc
  intro hsp
  rw [hsp] at this
  exact absurd this (by decide)

/-- `pyStrip` is the identity on good lists with no leading or trailing
space. -/
theorem pyStrip_eq_self {l : List Char}
    (hmem : ∀ c ∈ l, GoodChar c)
    (hh : ∀ c, l.head? = some c → c ≠ ' ')
    (hl : ∀ c, l.getLast? = some c → c ≠ ' ') :
    pyStrip l = l := by
  have hdw : l.dropWhile isPySpace = l := by
    cases l with
    | nil => rfl
    | cons a rest =>
      have ha : a ≠ ' ' := hh a rfl
      have hans : isPySpace a = false := goodChar_not_pySpace (hmem a (by simp)) ha
      rw [List.dropWhile_cons, if_neg (by simp [hans])]
  unfold pyStrip
  rw [hdw]
  refine dropTrailWs_eq_self ?_
  intro c hc
  exact goodChar_not_pySpace (hmem c (getLast?_mem_self hc)) (hl c hc)

/-- `normChars` is the identity on its own output. -/
theorem normChars_idem (l : List Char) : normChars (normChars l) = normChars l := by
  have hgood := @normChars_good l
  have hlow : (normChars l).map Char.toLower = normChars l :=
    map_id_of_fix (fun c hc => goodChar_lower_fix (hgood c hc))
  have hpunct : (normChars l).map punctToSpace = normChars l :=
    map_id_of_fix (fun c hc => goodChar_punct_fix (hgood c hc))
  have hcoll : collapseWs (normChars l) = normChars l :=
    collapseWs_eq_self hgood normChars_chain normChars_getLast
  calc normChars (normChars l)
      = pyStrip (collapseWs (((normChars l).map Char.toLower).map punctToSpace)) := rfl
    _ = pyStrip (normChars l) := by rw [hlow, hpunct, hcoll]
    _ = normChars l := pyStrip_eq_self hgood normChars_head normChars_getLast

/-! ### URL pattern generator (crawl_cards.py lines 84-159) -/

/-- The wiki base URL of crawl_cards.py line 35. -/
def WIKI_BASE_URL : String := "https://yugioh.fandom.com/wiki"

/-- Python's `card_name.replace(" ", "_")`. -/
def replSpace (l : List Char) : List Char :=
  l.map (fun c => if c = ' ' then '_' else c)

/-- Head-is-digit test used by the hash substitutions. -/
def headIsDigit : List Char → Bool
  | [] => false
  | d :: _ => d.isDigit

/-- Model of `re.sub(r"_#(\d+)", r"_\1", ·)`: every `#` that is preceded by an
underscore and followed by a digit is deleted. -/
def subUnderscoreHash : List Char → List Char
  | [] => []
  | [c] => [c]
  | c1 :: c2 :: rest =>
    if c1 = '_' ∧ c2 = '#' ∧ headIsDigit rest then '_' :: subUnderscoreHash rest
    else c1 :: subUnderscoreHash (c2 :: rest)

/-- Model of `re.sub(r"#(\d+)", r"_\1", ·)`: every `#` followed by a digit
becomes an underscore. -/
def subHashDigit : List Char → List Char
  | [] => []
  | c :: rest =>
    if c = '#' ∧ headIsDigit rest then '_' :: subHashDigit rest
    else c :: subHashDigit rest

/-- Head-is-underscore test used by the underscore-run collapsing. -/
def headIsUnderscore : List Char → Bool
  | [] => false
  | d :: _ => d = '_'

/-- Model of `re.sub(r"__+", "_", ·)`: maximal runs of underscores collapse to
a single underscore (runs of length one are unchanged). -/
def collapseUnderscores : List Char → List Char
  | [] => []
  | c :: rest =>
    if c = '_' ∧ headIsUnderscore rest then collapseUnderscores rest
    else c :: collapseUnderscores rest

/-- Pattern 1 (crawl_cards.py lines 105-113): spaces to underscores, then both
hash substitutions, then underscore collapsing. -/
def pattern1 (l : List Char) : List Char :=
  collapseUnderscores (subHashDigit (subUnderscoreHash (replSpace l)))

/-- Pattern 2 (lines 118-123): the `#N` substitution first, then spaces to
underscores, then underscore collapsing. -/
def pattern2 (l : List Char) : List Char :=
  collapseUnderscores (replSpace (subHashDigit l))

/-- Pattern 3 (lines 127-130): spaces to underscores only. -/
def pattern3 (l : List Char) : List Char :=
  replSpace l

/-- Pattern 4 (lines 134-141): spaces to underscores, commas and quotes
removed, hash substitutions, underscore collapsing. -/
def pattern4 (l : List Char) : List Char :=
  collapseUnderscores (subHashDigit (subUnderscoreHash
    ((replSpace l).filter (fun c => !(c = ',' || c = '\'' || c = '"')))))

/-- Pattern 5 (lines 144-150): spaces to underscores, quotes removed, hash
substitutions, underscore collapsing. -/
def pattern5 (l : List Char) : List Char :=
  collapseUnderscores (subHashDigit (subUnderscoreHash
    ((replSpace l).filter (fun c => !(c = '\'' || c = '"')))))

/-- Pattern 6 (lines 153-157): spaces to underscores, `#` removed entirely,
underscore collapsing. -/
def pattern6 (l : List Char) : List Char :=
  collapseUnderscores ((replSpace l).filter (fun c => !(c = '#')))

/-- The URL built for a pattern: `f"{WIKI_BASE_URL}/{pattern}"`. -/
def urlOfPattern (p : List Char) : String :=
  String.mk (WIKI_BASE_URL.toList ++ '/' :: p)

/-- One step of the duplicate-avoiding accumulation of crawl_cards.py
(`if pattern not in pattern_set: pattern_set.add(...); patterns.append(...)`). -/
def dedupStep (acc : List (List Char) × List String) (p : List Char) :
    List (List Char) × List String :=
  if p ∈ acc.1 then acc else (acc.1 ++ [p], acc.2 ++ [urlOfPattern p])

/-- `get_card_url_patterns` (crawl_cards.py lines 84-159): the six pattern
variants, deduplicated in first-seen order, each rendered as a wiki URL. -/
def get_card_url_patterns (card_name : String) : List String :=
  (([pattern1 card_name.toList, pattern2 card_name.toList, pattern3 card_name.toList,
     pattern4 card_name.toList, pattern5 card_name.toList, pattern6 card_name.toList].foldl
      dedupStep ([], []))).2

/-! Facts about the pattern fold: the produced URL list is duplicate-free and
non-empty, and collapses to a single URL for plain names. -/

theorem urlOfPattern_inj : Function.Injective urlOfPattern := by
  intro p q h
  unfold urlOfPattern at h
  have h1 : WIKI_BASE_URL.toList ++ '/' :: p = WIKI_BASE_URL.toList ++ '/' :: q := by
    have := congrArg String.toList h
    simpa using this
  have h2 : '/' :: p = '/' :: q := List.append_cancel_left h1
  exact List.cons_injective h2

theorem dedup_fold_invariant :
    ∀ (ps : List (List Char)) (seen : List (List Char)) (out : List String),
    out = seen.map urlOfPattern → seen.Nodup →
    (ps.foldl dedupStep (seen, out)).2 = (ps.foldl dedupStep (seen, out)).1.map urlOfPattern ∧
      (ps.foldl dedupStep (seen, out)).1.Nodup
  | [], seen, out, hout, hnd => ⟨hout, hnd⟩
  | p :: ps, seen, out, hout, hnd => by
    rw [List.foldl_cons]
    by_cases hp : p ∈ seen
    · have : dedupStep (seen, out) p = (seen, out) := by
        simp [dedupStep, hp]
      rw [this]
      exact dedup_fold_invariant ps seen out hout hnd
    · have : dedupStep (seen, out) p = (seen ++ [p], out ++ [urlOfPattern p]) := by
        simp [dedupStep, hp]
      rw [this]
      refine dedup_fold_invariant ps _ _ ?_ ?_
      · rw [hout, List.map_append]
        rfl
      · rw [List.nodup_append]
        exact ⟨hnd, List.nodup_singleton _, by simpa using hp⟩

theorem dedup_fold_mono :
    ∀ (ps : List (List Char)) (acc : List (List Char) × List String),
    acc.2.length ≤ (ps.foldl dedupStep acc).2.length
  | [], acc => le_refl _
  | p :: ps, acc => by
    rw [List.foldl_cons]
    refine le_trans ?_ (dedup_fold_mono ps (dedupStep acc p))
    unfold dedupStep
    by_cases hp : p ∈ acc.1
    · rw [if_pos hp]
    · rw [if_neg hp]
      simp

/-- The URL list is duplicate-free (dedup by exact pattern-string equality)
and non-empty. -/
theorem get_card_url_patterns_nodup_nonempty (card_name : String) :
    (get_card_url_patterns card_name).Nodup ∧ get_card_url_patterns card_name ≠ [] := by
  constructor
  · obtain ⟨hout, hnd⟩ := dedup_fold_invariant
      [pattern1 card_name.toList, pattern2 card_name.toList, pattern3 card_name.toList,
       pattern4 card_name.toList, pattern5 card_name.toList, pattern6 card_name.toList]
      [] [] rfl List.nodup_nil
    rw [get_card_url_patterns, hout]
    exact hnd.map urlOfPattern_inj
  · have h1 : dedupStep ([], []) (pattern1 card_name.toList) =
        ([pattern1 card_name.toList], [urlOfPattern (pattern1 card_name.toList)]) := by
      simp [dedupStep]
    have := dedup_fold_mono
      [pattern2 card_name.toList, pattern3 card_name.toList, pattern4 card_name.toList,
       pattern5 card_name.toList, pattern6 card_name.toList]
      ([pattern1 card_name.toList], [urlOfPattern (pattern1 card_name.toList)])
    intro hempty
    rw [get_card_url_patterns, List.foldl_cons, h1] at hempty
    rw [hempty] at this
    simp at this

theorem subUnderscoreHash_id : ∀ {l : List Char}, '#' ∉ l → subUnderscoreHash l = l
  | [], _ => rfl
  | [c], _ => rfl
  | c1 :: c2 :: rest, h => by
    have h2 : ¬(c1 = '_' ∧ c2 = '#' ∧ headIsDigit rest = true) := by
      rintro ⟨-, rfl, -⟩
      exact h (by simp)
    show (if c1 = '_' ∧ c2 = '#' ∧ headIsDigit rest then '_' :: subUnderscoreHash rest
          else c1 :: subUnderscoreHash (c2 :: rest)) = c1 :: c2 :: rest
    rw [if_neg h2]
    congr 1
    exact subUnderscoreHash_id (fun hc => h (List.mem_cons_of_mem _ hc))

theorem subHashDigit_id : ∀ {l : List Char}, '#' ∉ l → subHashDigit l = l
  | [], _ => rfl
  | c :: rest, h => by
    have hc : ¬(c = '#' ∧ headIsDigit rest = true) := by
      rintro ⟨rfl, -⟩
      exact h (by simp)
    show (if c = '#' ∧ headIsDigit rest then '_' :: subHashDigit rest
          else c :: subHashDigit rest) = c :: rest
    rw [if_neg hc]
    congr 1
    exact subHashDigit_id (fun hm => h (List.mem_cons_of_mem _ hm))

theorem collapseUnderscores_id : ∀ {l : List Char},
    l.Chain' (fun a b => ¬(a = '_' ∧ b = '_')) → collapseUnderscores l = l
  | [], _ => rfl
  | c :: rest, h => by
    have hc : ¬(c = '_' ∧ headIsUnderscore rest = true) := by
      rintro ⟨rfl, hu⟩
      cases rest with
      | nil => exact absurd hu (by decide)
      | cons d t =>
        have hd : d = '_' := by simpa [headIsUnderscore] using hu
        exact (List.chain'_cons'.mp h).1 d (by simp) ⟨rfl, hd⟩
    show (if c = '_' ∧ headIsUnderscore rest then collapseUnderscores rest
          else c :: collapseUnderscores rest) = c :: rest
    rw [if_neg hc]
    congr 1
    exact collapseUnderscores_id (List.chain'_cons'.mp h).2

theorem mem_replSpace {c : Char} {l : List Char} (h : c ∈ replSpace l) :
    c = '_' ∨ c ∈ l := by
  rw [replSpace, List.mem_map] at h
  obtain ⟨x, hx, hfx⟩ := h
  by_cases hxs : x = ' '
  · left
    rw [← hfx, hxs]
    rfl
  · right
    rw [← hfx, if_neg hxs]
    exact hx

theorem replSpace_chain {l : List Char}
    (hu : '_' ∉ l)
    (hch : l.Chain' (fun a b => ¬(isPySpace a = true ∧ isPySpace b = true))) :
    (replSpace l).Chain' (fun a b => ¬(a = '_' ∧ b = '_')) := by
  rw [replSpace, List.chain'_map]
  induction l with
  | nil => simp
  | cons a rest ih =>
    rw [List.chain'_cons']
    constructor
    · intro y hy ⟨hfa, hfy⟩
      cases rest with
      | nil => simp at hy
      | cons b t =>
        simp at hy
        subst hy
        have ha : a = ' ' := by
          by_cases has : a = ' '
          · exact has
          · rw [if_neg has] at hfa
            exact absurd hfa (fun hEq => hu (by simp [hEq]))
        have hb : b = ' ' := by
          by_cases hbs : b = ' '
          · exact hbs
          · rw [if_neg hbs] at hfy
            exact absurd hfy (fun hEq => hu (by simp [hEq]))
        subst ha
        subst hb
        exact (List.chain'_cons'.mp hch).1 ' ' (by simp) ⟨rfl, rfl⟩
    · exact ih (fun hm => hu (List.mem_cons_of_mem _ hm)) (List.chain'_cons'.mp hch).2

/-- Under the C10 side conditions every pattern variant equals the
spaces-to-underscores rendering. -/
theorem patterns_collapse {l : List Char}
    (h1 : ∀ c ∈ l, ¬(c = '#' ∨ c = ',' ∨ c = '\'' ∨ c = '"' ∨ c = '_'))
    (h2 : l.Chain' (fun a b => ¬(isPySpace a = true ∧ isPySpace b = true))) :
    pattern1 l = replSpace l ∧ pattern2 l = replSpace l ∧ pattern3 l = replSpace l ∧
    pattern4 l = replSpace l ∧ pattern5 l = replSpace l ∧ pattern6 l = replSpace l := by
  have hhash : '#' ∉ l := fun hm => h1 '#' hm (by simp)
  have hus : '_' ∉ l := fun hm => h1 '_' hm (by simp)
  have hhash' : '#' ∉ replSpace l := by
    intro hm
    rcases mem_replSpace hm with h' | h'
    · exact absurd h' (by decide)
    · exact hhash h'
  have hchainU := replSpace_chain hus h2
  have hcoll : collapseUnderscores (replSpace l) = replSpace l :=
    collapseUnderscores_id hchainU
  have hfilter4 : (replSpace l).filter (fun c => !(c = ',' || c = '\'' || c = '"')) =
      replSpace l := by
    rw [List.filter_eq_self]
    intro c hc
    rcases mem_replSpace hc with rfl | h'
    · decide
    · have := h1 c h'
      simp only [Bool.not_eq_true']
      simp only [not_or] at this
      simp [this.2.1, this.2.2.1, this.2.2.2.1]
  have hfilter5 : (replSpace l).filter (fun c => !(c = '\'' || c = '"')) = replSpace l := by
    rw [List.filter_eq_self]
    intro c hc
    rcases mem_replSpace hc with rfl | h'
    · decide
    · have := h1 c h'
      simp only [not_or] at this
      simp [this.2.2.1, this.2.2.2.1]
  have hfilter6 : (replSpace l).filter (fun c => !(c = '#')) = replSpace l := by
    rw [List.filter_eq_self]
    intro c hc
    rcases mem_replSpace hc with rfl | h'
    · decide
    · have := h1 c h'
      simp only [not_or] at this
      simp [this.1]
  refine ⟨?_, ?_, rfl, ?_, ?_, ?_⟩
  · rw [pattern1, subUnderscoreHash_id hhash', subHashDigit_id hhash', hcoll]
  · rw [pattern2, subHashDigit_id hhash, hcoll]
  · rw [pattern4, hfilter4, subUnderscoreHash_id hhash', subHashDigit_id hhash', hcoll]
  · rw [pattern5, hfilter5, subUnderscoreHash_id hhash', subHashDigit_id hhash', hcoll]
  · rw [pattern6, hfilter6, hcoll]

theorem foldl_six_same (p : List Char) :
    ([p, p, p, p, p, p].foldl dedupStep ([], [])).2 = [urlOfPattern p] := by
  simp [dedupStep, List.foldl]

/-! ### Substring search and tokenization -/

/-- Does the hay list start with the needle list? -/
def startsList : List Char → List Char → Bool
  | [], _ => true
  | _ :: _, [] => false
  | a :: as, b :: bs => a = b && startsList as bs

/-- Python's substring containment `needle in hay`. -/
def containsSub : List Char → List Char → Bool
  | needle, [] => startsList needle []
  | needle, c :: rest => startsList needle (c :: rest) || containsSub needle rest

/-- Case-insensitive containment, modelling `re.search` of a fixed literal
alternative with `re.I`. -/
def containsI (hay pat : String) : Bool :=
  containsSub (pat.toList.map Char.toLower) (hay.toList.map Char.toLower)

/-- Case-sensitive containment on strings (Python's `in`). -/
def containsStr (hay pat : String) : Bool :=
  containsSub pat.toList hay.toList

/-- Helper of `pySplit`: accumulate the current word (reversed) while
scanning. -/
def pySplitGo : List Char → List Char → List String
  | [], acc => if acc.isEmpty then [] else [String.mk acc.reverse]
  | c :: rest, acc =>
    if isPySpace c then
      if acc.isEmpty then pySplitGo rest [] else String.mk acc.reverse :: pySplitGo rest []
    else pySplitGo rest (c :: acc)

/-- Python's `str.split()` with no argument: split on whitespace runs,
dropping empty tokens. -/
def pySplit (l : List Char) : List String :=
  pySplitGo l []

/-- The stop-word set of `validate_card_match` (crawl_cards.py line 255). -/
def stopWords : List String :=
  ["the", "of", "a", "an", "and", "or"]

/-- The significant-word set of a (normalized) string: tokens that are not
stop-words and are longer than 2 characters (crawl_cards.py lines 256-257). -/
def sigWords (s : String) : Finset String :=
  (pySplit s.toList).toFinset.filter (fun w => w ∉ stopWords ∧ 2 < w.length)

/-! ### The page document model

A `Document` records the observations that the BeautifulSoup navigation in
crawl_cards.py can make of a fetched page:

* `title` — the stripped text of the first matching `h1` element
  (crawl_cards.py lines 226-234), `none` when no `h1` exists;
* `infobox` — the `aside.portable-infobox`, as the finite map from
  `data-source` keys to the non-empty text that `extract_value_from_infobox`
  (lines 275-333) resolves for them, plus its first `img` element;
* `cardTable` — the `table.cardtable`, as the list of its `td` cells in
  document order plus its first `img` element;
* `classImg` / `anchorImg` — the image elements found by the class-matched
  and anchor-wrapped fallbacks (lines 564-569);
* `loreDiv` — the stripped text of the lore/description div (lines 605-608).
-/

/-- An `img` element with its three possible source attributes. -/
structure ImgElem where
  src : Option String
  dataSrc : Option String
  dataImage : Option String
deriving DecidableEq

/-- One `td` cell of the card table: `str` is BeautifulSoup's `.string`
(present only when the cell wraps a single string), `text` is
`get_text(strip=True)`, `sibling` is the text of `find_next_sibling("td")`
(`none` when there is no following `td`). -/
structure TableCell where
  str : Option String
  text : String
  sibling : Option String
deriving DecidableEq

/-- The portable-infobox: resolved data-source values and first image. -/
structure Infobox where
  fields : List (String × String)
  image : Option ImgElem
deriving DecidableEq

/-- The card table: its cells in document order and first image. -/
structure CardTable where
  cells : List TableCell
  image : Option ImgElem
deriving DecidableEq

/-- A fetched page as observed by the parser. -/
structure Document where
  title : Option String
  infobox : Option Infobox
  cardTable : Option CardTable
  classImg : Option ImgElem
  anchorImg : Option ImgElem
  loreDiv : Option String
deriving DecidableEq

/-- The document with no extractable content at all. -/
def emptyDoc : Document :=
  { title := none, infobox := none, cardTable := none,
    classImg := none, anchorImg := none, loreDiv := none }

/-! ### validate_card_match (crawl_cards.py lines 212-272) -/

/-- The reason attached to a validation verdict.  The source builds these as
formatted strings; only their identity matters here. -/
inductive MatchReason where
  | noTitle
  | invalidTitle
  | exactMatch
  | containment
  | noSignificantWords
  | highOverlap
  | lowOverlap
deriving DecidableEq

/-- `validate_card_match` (crawl_cards.py lines 212-272).  The overlap test
`match_ratio >= 0.75` is modelled exactly as `3 * |expected| ≤ 4 * overlap`. -/
def validate_card_match (doc : Document) (expected_name : String) :
    Bool × MatchReason :=
  match doc.title with
  | none => (false, MatchReason.noTitle)
  | some page_name =>
    if page_name = "" ∨ page_name.length < 2 then (false, MatchReason.invalidTitle)
    else
      let page_normalized := normalize_name page_name
      let expected_normalized := normalize_name expected_name
      if page_normalized = expected_normalized then (true, MatchReason.exactMatch)
      else if containsStr page_normalized expected_normalized ||
              containsStr expected_normalized page_normalized then
        (true, MatchReason.containment)
      else
        let expected_words := sigWords expected_normalized
        let page_words := sigWords page_normalized
        if expected_words = ∅ then (true, MatchReason.noSignificantWords)
        else if 3 * expected_words.card ≤ 4 * (expected_words ∩ page_words).card then
          (true, MatchReason.highOverlap)
        else (false, MatchReason.lowOverlap)

/-- The acceptance ladder exactly as the specification words it
(spec.md section 4.3): exact normalized match, else substring containment in
either direction, else the 0.75 significant-token overlap rule with empty
expected token sets accepted. -/
def specValidationLadder (title expected : String) : Bool :=
  if normalize_name title = normalize_name expected then true
  else if containsStr (normalize_name title) (normalize_name expected) ||
          containsStr (normalize_name expected) (normalize_name title) then true
  else if sigWords (normalize_name expected) = ∅ then true
  else decide (3 * (sigWords (normalize_name expected)).card ≤
          4 * (sigWords (normalize_name expected) ∩ sigWords (normalize_name title)).card)

/-! ### extract_numeric_value (crawl_cards.py lines 336-356) -/

/-- Value of a digit run. -/
def digitsToNat (l : List Char) : Nat :=
  l.foldl (fun n c => 10 * n + (c.toNat - 48)) 0

/-- First match of the regex `(-?\d+)` in a character list, as an integer. -/
def findSignedInt : List Char → Option Int
  | [] => none
  | '-' :: rest =>
    if headIsDigit rest then some (-(digitsToNat (rest.takeWhile Char.isDigit) : Int))
    else findSignedInt rest
  | c :: rest =>
    if c.isDigit then some ((digitsToNat ((c :: rest).takeWhile Char.isDigit) : Int))
    else findSignedInt rest

/-- `extract_numeric_value` (crawl_cards.py lines 336-356): the first
signed-integer-looking substring of the text, if any. -/
def extract_numeric_value (text : String) : Option Int :=
  findSignedInt text.toList

/-! ### Field extraction (crawl_cards.py lines 275-333 and 359-627)

Each `…Of` definition below renders, for one output field, exactly the
control flow of `parse_card_page`: the infobox method runs first (guarded by
the presence of the infobox), then the table method runs only when the field
still holds its default, exactly as the `if card_data[...] == 0` /
`if not card_data[...]` guards in the source do.
-/

/-- Python truthiness of an optional string: `None` and `""` are falsy. -/
def optFalsy (o : Option String) : Bool :=
  o = none || o = some ""

/-- Python's `a or b` for optional strings (used for the chained
`extract_value_from_infobox` fallbacks). -/
def pyOrOpt (a b : Option String) : Option String :=
  if optFalsy a then b else a

/-- Keep an optional string only when truthy (models `if text:` guards). -/
def truthyOpt (o : Option String) : Option String :=
  if optFalsy o then none else o

/-- Resolve a data-source key against the infobox field map.  This models the
result of `extract_value_from_infobox(soup, data_source)`
(crawl_cards.py lines 275-333), whose BeautifulSoup navigation is abstracted
as a finite map from data-source keys to resolved text. -/
def lookupField : List (String × String) → String → Option String
  | [], _ => none
  | (k, v) :: rest, ds => if k = ds then some v else lookupField rest ds

def ibLookup (ib : Infobox) (ds : String) : Option String :=
  lookupField ib.fields ds

/-- Infobox ATK (lines 404-410): `atk` falling back to `attack`, numeric. -/
def ibAtk (ib : Infobox) : Option Int :=
  (truthyOpt (pyOrOpt (ibLookup ib "atk") (ibLookup ib "attack"))).bind extract_numeric_value

/-- Infobox DEF (lines 413-419). -/
def ibDef (ib : Infobox) : Option Int :=
  (truthyOpt (pyOrOpt (ibLookup ib "def") (ibLookup ib "defense"))).bind extract_numeric_value

/-- Infobox level (lines 422-428): `level` falling back to `stars`, numeric,
with no range check. -/
def ibLevel (ib : Infobox) : Option Int :=
  (truthyOpt (pyOrOpt (ibLookup ib "level") (ibLookup ib "stars"))).bind extract_numeric_value

/-- Category keyword detection (lines 433-438 and 524-529): substring
containment of `Monster`, `Spell`, `Trap` in that order, case-sensitive. -/
def typeKeyword (s : String) : Option String :=
  if containsStr s "Monster" then some "Monster"
  else if containsStr s "Spell" then some "Spell"
  else if containsStr s "Trap" then some "Trap"
  else none

/-- Infobox type (lines 431-438). -/
def ibType (ib : Infobox) : Option String :=
  match truthyOpt (ibLookup ib "type") with
  | some s => typeKeyword s
  | none => none

/-- Infobox attribute (lines 441-443): the value stripped. -/
def ibAttr (ib : Infobox) : Option String :=
  match truthyOpt (ibLookup ib "attribute") with
  | some s => some (String.mk (pyStrip s.toList))
  | none => none

/-- Infobox race (lines 446-450): `property` falling back to `species`,
stripped. -/
def ibRace (ib : Infobox) : Option String :=
  match truthyOpt (pyOrOpt (ibLookup ib "property") (ibLookup ib "species")) with
  | some s => some (String.mk (pyStrip s.toList))
  | none => none

/-- Infobox description (lines 587-593): `lore`, then `description`, then
`effect`. -/
def ibDesc (ib : Infobox) : Option String :=
  truthyOpt (pyOrOpt (pyOrOpt (ibLookup ib "lore") (ibLookup ib "description"))
    (ibLookup ib "effect"))

/-! Table-based extraction.  `findCellStr` models
`card_table.find("td", string=regex)`: the first cell whose single-string
content matches; the `loop…` functions model the `for td in
card_table.find_all("td")` fallbacks over `get_text` with their `break`
conditions. -/

def atkLabel (s : String) : Bool := containsI s "ATK" || containsI s "Attack"

def defLabel (s : String) : Bool := containsI s "DEF" || containsI s "Defense"

def levelLabel (s : String) : Bool := containsI s "Level" || containsI s "Stars"

def typeLabel (s : String) : Bool := containsI s "Type" || containsI s "Card Type"

def attrLabel (s : String) : Bool := containsI s "Attribute"

def raceLabel (s : String) : Bool := containsI s "Property" || containsI s "Species"

def descLabel (s : String) : Bool :=
  containsI s "Lore" || containsI s "Description" || containsI s "Card Text" ||
    containsI s "Effect"

/-- First cell whose `.string` matches the label predicate
(`find("td", string=re.compile(...))`). -/
def findCellStr (p : String → Bool) : List TableCell → Option TableCell
  | [] => none
  | c :: rest =>
    match c.str with
    | some s => if p s then some c else findCellStr p rest
    | none => findCellStr p rest

/-- The ATK fallback loop (lines 464-473): first cell whose text matches,
contains no `?`, and whose sibling yields a number. -/
def loopAtk : List TableCell → Option Int
  | [] => none
  | c :: rest =>
    if atkLabel c.text ∧ ¬containsStr c.text "?" then
      match c.sibling.bind extract_numeric_value with
      | some v => some v
      | none => loopAtk rest
    else loopAtk rest

/-- The DEF fallback loop (lines 485-494). -/
def loopDef : List TableCell → Option Int
  | [] => none
  | c :: rest =>
    if defLabel c.text ∧ ¬containsStr c.text "?" then
      match c.sibling.bind extract_numeric_value with
      | some v => some v
      | none => loopDef rest
    else loopDef rest

/-- The level fallback loop (lines 506-515): only values in `(0, 12]` are
accepted; out-of-range values do not stop the scan. -/
def loopLevel : List TableCell → Option Int
  | [] => none
  | c :: rest =>
    if levelLabel c.text then
      match c.sibling.bind extract_numeric_value with
      | some v => if 0 < v ∧ v ≤ 12 then some v else loopLevel rest
      | none => loopLevel rest
    else loopLevel rest

/-- Table ATK (lines 454-473): the direct string-matched cell wins and is
final (no range or fallback), otherwise the loop runs. -/
def tblAtk (cells : List TableCell) : Option Int :=
  match findCellStr atkLabel cells with
  | some c => c.sibling.bind extract_numeric_value
  | none => loopAtk cells

/-- Table DEF (lines 476-494). -/
def tblDef (cells : List TableCell) : Option Int :=
  match findCellStr defLabel cells with
  | some c => c.sibling.bind extract_numeric_value
  | none => loopDef cells

/-- Table level (lines 497-515): the direct string-matched path stores any
extracted number unchecked; only the loop applies the `(0, 12]` filter. -/
def tblLevel (cells : List TableCell) : Option Int :=
  match findCellStr levelLabel cells with
  | some c => c.sibling.bind extract_numeric_value
  | none => loopLevel cells

/-- Table type (lines 518-529). -/
def tblType (cells : List TableCell) : Option String :=
  match findCellStr typeLabel cells with
  | some c =>
    match c.sibling with
    | some s => typeKeyword s
    | none => none
  | none => none

/-- Table attribute (lines 532-537). -/
def tblAttr (cells : List TableCell) : Option String :=
  match findCellStr attrLabel cells with
  | some c => c.sibling
  | none => none

/-- Table race (lines 540-556): a `Property|Species` cell's sibling text, or
the prefix before `/` of the type cell's sibling. -/
def tblRace (cells : List TableCell) : Option String :=
  match findCellStr raceLabel cells with
  | some c => c.sibling
  | none =>
    match findCellStr typeLabel cells with
    | some c =>
      c.sibling.bind (fun v =>
        if containsStr v "/" then
          some (String.mk (pyStrip (v.toList.takeWhile (fun ch => ¬ ch = '/'))))
        else none)
    | none => none

/-- Table description (lines 595-602). -/
def tblDesc (cells : List TableCell) : Option String :=
  match findCellStr descLabel cells with
  | some c => c.sibling
  | none => none

/-- Cells of the document's card table (empty when there is none). -/
def cellsOf (doc : Document) : List TableCell :=
  match doc.cardTable with
  | some ct => ct.cells
  | none => []

/-- ATK of the document (infobox first; the table runs only while the value
is still 0, line 455). -/
def atkOf (doc : Document) : Int :=
  let v1 : Int := ((doc.infobox.bind ibAtk).getD 0)
  if v1 = 0 then ((doc.cardTable.bind (fun ct => tblAtk ct.cells)).getD 0) else v1

/-- DEF of the document (line 476 guard). -/
def defOf (doc : Document) : Int :=
  let v1 : Int := ((doc.infobox.bind ibDef).getD 0)
  if v1 = 0 then ((doc.cardTable.bind (fun ct => tblDef ct.cells)).getD 0) else v1

/-- Level of the document (line 497 guard). -/
def levelOf (doc : Document) : Int :=
  let v1 : Int := ((doc.infobox.bind ibLevel).getD 0)
  if v1 = 0 then ((doc.cardTable.bind (fun ct => tblLevel ct.cells)).getD 0) else v1

/-- Category of the document as scraped (line 518 guard); `none` when neither
layout determines it. -/
def typeOf (doc : Document) : Option String :=
  let t1 := doc.infobox.bind ibType
  if optFalsy t1 then
    match doc.cardTable.bind (fun ct => tblType ct.cells) with
    | some v => some v
    | none => t1
  else t1

/-- Attribute of the document (line 532 guard). -/
def attrOf (doc : Document) : Option String :=
  let t1 := doc.infobox.bind ibAttr
  if optFalsy t1 then
    match doc.cardTable.bind (fun ct => tblAttr ct.cells) with
    | some v => some v
    | none => t1
  else t1

/-- Race of the document (line 540 guard). -/
def raceOf (doc : Document) : Option String :=
  let t1 := doc.infobox.bind ibRace
  if optFalsy t1 then
    match doc.cardTable.bind (fun ct => tblRace ct.cells) with
    | some v => some v
    | none => t1
  else t1

/-- Description of the document (guards on lines 595 and 605; the lore-div
fallback runs outside the container guard). -/
def descOf (doc : Document) : Option String :=
  let d1 := doc.infobox.bind ibDesc
  let d2 :=
    if optFalsy d1 then
      match doc.cardTable.bind (fun ct => tblDesc ct.cells) with
      | some v => some v
      | none => d1
    else d1
  if optFalsy d2 then
    match doc.loreDiv with
    | some v => some v
    | none => d2
  else d2

/-- Pick the image source attribute chain `src or data-src or data-image`
(line 572), with Python truthiness. -/
def pickSrc (img : ImgElem) : Option String :=
  match truthyOpt img.src with
  | some s => some s
  | none =>
    match truthyOpt img.dataSrc with
    | some s => some s
    | none => truthyOpt img.dataImage

/-- URL conversion of lines 575-578. -/
def convertUrl (s : String) : String :=
  if startsList "//".toList s.toList then "https:" ++ s
  else if startsList "/".toList s.toList then "https://yugioh.fandom.com" ++ s
  else s

/-- The image element chain of lines 559-569: infobox image, table image,
class-matched image, anchor-wrapped image. -/
def imgElemOf (doc : Document) : Option ImgElem :=
  match doc.infobox.bind (fun ib => ib.image) with
  | some e => some e
  | none =>
    match doc.cardTable.bind (fun ct => ct.image) with
    | some e => some e
    | none =>
      match doc.classImg with
      | some e => some e
      | none => doc.anchorImg

/-- Scraped image of the document (lines 558-583); the whole block runs only
inside the `if container:` guard. -/
def imageOf (doc : Document) : Option String :=
  if doc.infobox.isSome || doc.cardTable.isSome then
    (imgElemOf doc).bind (fun e => (pickSrc e).map convertUrl)
  else none

/-! ### parse_card_page (crawl_cards.py lines 359-627) -/

/-- The record assembled by `parse_card_page`. -/
structure CardRecord where
  id : Int
  name : String
  type : Option String
  level : Int
  attack_points : Int
  defense_points : Int
  cost : Int
  description : Option String
  image : Option String
  attr : Option String
  race : Option String
  rarity : Option String
deriving DecidableEq

/-- The record after the extraction phase of `parse_card_page`
(lines 375-608), before cost computation, type defaulting and the image
fallback.  `name` is the CSV name (line 377, never overridden); `rarity` is
never extracted. -/
def scrapeFields (doc : Document) (card_id : Int) (card_name : String) : CardRecord :=
  { id := card_id, name := card_name, type := typeOf doc, level := levelOf doc,
    attack_points := atkOf doc, defense_points := defOf doc, cost := 0,
    description := descOf doc, image := imageOf doc, attr := attrOf doc,
    race := raceOf doc, rarity := none }

/-- Cost computation (lines 610-615): `level if level > 0 else 0` for
category Monster at this point, else 0. -/
def withCost (r : CardRecord) : CardRecord :=
  { r with cost :=
      if r.type = some "Monster" then (if 0 < r.level then r.level else 0) else 0 }

/-- Type defaulting (lines 617-619). -/
def withDefaultType (r : CardRecord) : CardRecord :=
  if optFalsy r.type then { r with type := some "Monster" } else r

/-- The YGOPRODeck placeholder image URL (line 624). -/
def placeholderImage (card_id : Int) : String :=
  "https://images.ygoprodeck.com/images/cards/" ++ toString card_id ++ ".jpg"

/-- Image fallback (lines 621-625). -/
def withImageFallback (card_id : Int) (r : CardRecord) : CardRecord :=
  if optFalsy r.image then { r with image := some (placeholderImage card_id) } else r

/-- `parse_card_page` (crawl_cards.py lines 359-627). -/
def parse_card_page (doc : Document) (card_id : Int) (card_name : String) : CardRecord :=
  withImageFallback card_id (withDefaultType (withCost (scrapeFields doc card_id card_name)))

/-! ### Migration runner (run_migrations.py) -/

/-- One migration script: its parsed version, description, and whether its
SQL executes without raising. -/
structure Migration where
  version : Nat
  description : String
  ok : Bool
deriving DecidableEq

/-- The database ledger state: the versions recorded in
`flyway_schema_history` with `success = true`. -/
structure MigState where
  ledger : List Nat
deriving DecidableEq

/-- `check_migration_applied` (run_migrations.py lines 87-114). -/
def check_migration_applied (st : MigState) (version : Nat) : Bool :=
  version ∈ st.ledger

/-- `record_migration` (lines 117-160): append a success row for the
version. -/
def record_migration (st : MigState) (version : Nat) : MigState :=
  { ledger := st.ledger ++ [version] }

/-- `run_migration` (lines 163-198): skip already-applied versions; in a dry
run nothing executes; otherwise execute the SQL, record and commit on
success, roll back (recording nothing) on failure. -/
def run_migration (st : MigState) (m : Migration) (dry_run : Bool) : MigState × Bool :=
  if check_migration_applied st m.version then (st, true)
  else if dry_run then (st, true)
  else if m.ok then (record_migration st m.version, true)
  else (st, false)

/-- The migration loop of `main` (lines 246-252): run in order, exiting with
code 1 at the first failure; exit code 0 when all succeed. -/
def runAllMigrations : MigState → List Migration → Bool → MigState × Nat
  | st, [], _ => (st, 0)
  | st, m :: rest, dry_run =>
    match run_migration st m dry_run with
    | (st2, true) => runAllMigrations st2 rest dry_run
    | (st2, false) => (st2, 1)

/-! ### Stage lemmas for `parse_card_page` -/

theorem withCost_name (r : CardRecord) : (withCost r).name = r.name := rfl

theorem withCost_level (r : CardRecord) : (withCost r).level = r.level := rfl

theorem withCost_type (r : CardRecord) : (withCost r).type = r.type := rfl

theorem withCost_image (r : CardRecord) : (withCost r).image = r.image := rfl

theorem withDefaultType_name (r : CardRecord) : (withDefaultType r).name = r.name := by
  unfold withDefaultType
  split <;> rfl

theorem withDefaultType_level (r : CardRecord) : (withDefaultType r).level = r.level := by
  unfold withDefaultType
  split <;> rfl

theorem withDefaultType_cost (r : CardRecord) : (withDefaultType r).cost = r.cost := by
  unfold withDefaultType
  split <;> rfl

theorem withDefaultType_image (r : CardRecord) : (withDefaultType r).image = r.image := by
  unfold withDefaultType
  split <;> rfl

theorem withImageFallback_name (i : Int) (r : CardRecord) :
    (withImageFallback i r).name = r.name := by
  unfold withImageFallback
  split <;> rfl

theorem withImageFallback_level (i : Int) (r : CardRecord) :
    (withImageFallback i r).level = r.level := by
  unfold withImageFallback
  split <;> rfl

theorem withImageFallback_cost (i : Int) (r : CardRecord) :
    (withImageFallback i r).cost = r.cost := by
  unfold withImageFallback
  split <;> rfl

/-- The level of the returned record is the extracted level. -/
theorem parse_level (doc : Document) (i : Int) (n : String) :
    (parse_card_page doc i n).level = levelOf doc := by
  unfold parse_card_page
  rw [withImageFallback_level, withDefaultType_level, withCost_level]
  rfl

/-- The cost of the returned record, in terms of the scraped (pre-default)
category and the extracted level. -/
theorem parse_cost (doc : Document) (i : Int) (n : String) :
    (parse_card_page doc i n).cost =
      (if typeOf doc = some "Monster" ∧ 0 < levelOf doc then levelOf doc else 0) := by
  unfold parse_card_page
  rw [withImageFallback_cost, withDefaultType_cost]
  show (if typeOf doc = some "Monster" then (if 0 < levelOf doc then levelOf doc else 0) else 0) = _
  by_cases ht : typeOf doc = some "Monster"
  · rw [if_pos ht]
    by_cases hl : 0 < levelOf doc
    · rw [if_pos hl, if_pos ⟨ht, hl⟩]
    · rw [if_neg hl, if_neg (fun hc => hl hc.2)]
  · rw [if_neg ht, if_neg (fun hc => ht hc.1)]

/-! Range facts for the table level fallback loop (C2). -/

theorem loopLevel_range : ∀ {cells : List TableCell} {v : Int},
    loopLevel cells = some v → 0 < v ∧ v ≤ 12
  | [], v, h => by simp [loopLevel] at h
  | c :: rest, v, h => by
    unfold loopLevel at h
    split at h
    · split at h
      · split at h
        · cases h
          assumption
        · exact loopLevel_range h
      · exact loopLevel_range h
    · exact loopLevel_range h

theorem findCellStr_none {p : String → Bool} : ∀ {cells : List TableCell},
    (∀ c ∈ cells, ∀ s, c.str = some s → p s = false) → findCellStr p cells = none
  | [], _ => rfl
  | c :: rest, h => by
    have hrest : findCellStr p rest = none :=
      findCellStr_none (fun c' hc' => h c' (List.mem_cons_of_mem _ hc'))
    unfold findCellStr
    split
    · split
      · rename_i s hs hp
        exact absurd hp (by simp [h c (by simp) s hs])
      · exact hrest
    · exact hrest

/-! ### Image equation for `parse_card_page` -/

theorem withImageFallback_image (i : Int) (r : CardRecord) :
    (withImageFallback i r).image =
      if optFalsy r.image then some (placeholderImage i) else r.image := by
  unfold withImageFallback
  by_cases h : optFalsy r.image = true
  · rw [if_pos h, if_pos h]
  · rw [if_neg h, if_neg h]

theorem parse_image (doc : Document) (i : Int) (n : String) :
    (parse_card_page doc i n).image =
      if optFalsy (imageOf doc) then some (placeholderImage i) else imageOf doc := by
  unfold parse_card_page
  rw [withImageFallback_image, withDefaultType_image, withCost_image]
  rfl

/-! ### Concrete documents used to settle the claims -/

/-- A card-table document whose `Level` label cell is matched by the direct
`.string` path, with a numeric sibling and no category information. -/
def c1Doc : Document :=
  { title := none, infobox := none,
    cardTable := some
      { cells := [{ str := some "Level", text := "Level", sibling := some "7" }],
        image := none },
    classImg := none, anchorImg := none, loreDiv := none }

/-- An infobox document describing a level-7 Monster with stats. -/
def c1MonsterDoc : Document :=
  { title := none,
    infobox := some
      { fields := [("type", "Normal Monster"), ("level", "7"), ("atk", "2600")],
        image := none },
    cardTable := none, classImg := none, anchorImg := none, loreDiv := none }

/-- An infobox document describing a Spell card that nevertheless carries
scraped numeric fields. -/
def c1SpellDoc : Document :=
  { title := none,
    infobox := some
      { fields := [("type", "Spell Card"), ("level", "4"), ("atk", "1000")],
        image := none },
    cardTable := none, classImg := none, anchorImg := none, loreDiv := none }

/-- A card-table document whose `Level` cell is matched by the direct
`.string` path with sibling text `13`. -/
def c2DirectDoc : Document :=
  { title := none, infobox := none,
    cardTable := some
      { cells := [{ str := some "Level", text := "Level", sibling := some "13" }],
        image := none },
    classImg := none, anchorImg := none, loreDiv := none }

/-- A card-table document whose `Level` cell has no single-string content
(so only the `get_text` fallback loop can match it), with the given sibling
text. -/
def c2LoopDoc (s : String) : Document :=
  { title := none, infobox := none,
    cardTable := some
      { cells := [{ str := none, text := "Level", sibling := some s }],
        image := none },
    classImg := none, anchorImg := none, loreDiv := none }

/-! ### C1 — cost derivation -/

/-- C1 counterexample: on a document that determines a level but no
category, `parse_card_page` returns a record whose category is Monster (by
defaulting) with level 7 but cost 0, refuting `cost == level` for
Monster-category records with positive level. -/
theorem c1_cost_cex :
    (parse_card_page c1Doc 3 "X").type = some "Monster" ∧
    (parse_card_page c1Doc 3 "X").level = 7 ∧
    (parse_card_page c1Doc 3 "X").cost = 0 := by
  decide

/-- C1 (amended): the cost of the returned record equals the extracted level
exactly when the category extracted from the document (before the Monster
default is applied) is Monster and the level is positive, and is 0 in every
other case; in particular a Monster-category document with level 7 yields
cost 7 and a Spell-category document yields cost 0 regardless of its scraped
numeric fields. -/
theorem c1_cost_invariant :
    (∀ (doc : Document) (i : Int) (n : String),
      (parse_card_page doc i n).cost =
        (if typeOf doc = some "Monster" ∧ 0 < levelOf doc then levelOf doc else 0)) ∧
    (parse_card_page c1MonsterDoc 1 "Gaia").type = some "Monster" ∧
    (parse_card_page c1MonsterDoc 1 "Gaia").level = 7 ∧
    (parse_card_page c1MonsterDoc 1 "Gaia").cost = 7 ∧
    (parse_card_page c1SpellDoc 2 "Raigeki").type = some "Spell" ∧
    (parse_card_page c1SpellDoc 2 "Raigeki").level = 4 ∧
    (parse_card_page c1SpellDoc 2 "Raigeki").cost = 0 := by
  refine ⟨parse_cost, ?_, ?_, ?_, ?_, ?_, ?_⟩ <;> decide

/-! ### C2 — the `(0, 12]` level filter -/

/-- C2 counterexample: a level value 13 read from a Layout-B card table
through the direct string-matched path is stored, not rejected. -/
theorem c2_level_cex :
    (parse_card_page c2DirectDoc 1 "A").level = 13 := by
  decide

/-- C2 (amended): the `(0, 12]` filter applies only on the `get_text`
fallback loop, which runs when no table cell's single-string content matches
`Level|Stars`; on that path a stored level always lies in `(0, 12]`, values
0, 13 and 100 are rejected (the level stays at its default 0) and 12 is
accepted.  A cell matched by the direct string path stores its value
unchecked (see the counterexample). -/
theorem c2_level_range :
    (∀ (doc : Document) (i : Int) (n : String),
      doc.infobox = none →
      (∀ c ∈ cellsOf doc, ∀ s, c.str = some s → levelLabel s = false) →
      (parse_card_page doc i n).level = 0 ∨
        (0 < (parse_card_page doc i n).level ∧ (parse_card_page doc i n).level ≤ 12)) ∧
    (parse_card_page (c2LoopDoc "0") 1 "A").level = 0 ∧
    (parse_card_page (c2LoopDoc "13") 1 "A").level = 0 ∧
    (parse_card_page (c2LoopDoc "100") 1 "A").level = 0 ∧
    (parse_card_page (c2LoopDoc "12") 1 "A").level = 12 := by
  refine ⟨?_, by decide, by decide, by decide, by decide⟩
  intro doc i n hib hcells
  rw [parse_level]
  unfold levelOf
  rw [hib]
  simp only [Option.none_bind, Option.getD_none, if_pos]
  cases hct : doc.cardTable with
  | none => simp
  | some ct =>
    simp only [hct, Option.some_bind]
    have hfind : findCellStr levelLabel ct.cells = none := by
      refine findCellStr_none ?_
      intro c hc s hs
      refine hcells c ?_ s hs
      simp [cellsOf, hct, hc]
    unfold tblLevel
    rw [hfind]
    cases hl : loopLevel ct.cells with
    | none => simp
    | some v =>
      right
      simpa using loopLevel_range hl

theorem c2_level_range_witness :
    (parse_card_page (c2LoopDoc "100") 1 "A").level = 0 ∨
      (0 < (parse_card_page (c2LoopDoc "100") 1 "A").level ∧
        (parse_card_page (c2LoopDoc "100") 1 "A").level ≤ 12) :=
  c2_level_range.1 (c2LoopDoc "100") 1 "A" rfl
    (by
      intro c hc s hs
      simp [cellsOf, c2LoopDoc] at hc
      subst hc
      simp at hs)

/-! ### C4 — the name is immutable input -/

/-- C4: for every document, id and name, `parse_card_page` returns exactly
the input name; it is never derived from or overwritten by page content. -/
theorem c4_name_immutable (doc : Document) (card_id : Int) (card_name : String) :
    (parse_card_page doc card_id card_name).name = card_name := by
  unfold parse_card_page
  rw [withImageFallback_name, withDefaultType_name, withCost_name]
  rfl

/-! ### C7 — totality, defaults, image fallback -/

/-- C7: `parse_card_page` is total (the embedding is a function), the image
field of the returned record is always populated, it falls back to the
YGOPRODeck placeholder derived from the id when the page yields no image,
and an empty document produces exactly the documented defaults. -/
theorem c7_parse_total_defaults :
    (∀ (doc : Document) (i : Int) (n : String),
      ((parse_card_page doc i n).image).isSome = true) ∧
    (∀ (doc : Document) (i : Int) (n : String),
      imageOf doc = none →
      (parse_card_page doc i n).image = some (placeholderImage i)) ∧
    (∀ (i : Int) (n : String),
      parse_card_page emptyDoc i n =
        { id := i, name := n, type := some "Monster", level := 0,
          attack_points := 0, defense_points := 0, cost := 0, description := none,
          image := some (placeholderImage i), attr := none, race := none,
          rarity := none }) := by
  refine ⟨?_, ?_, ?_⟩
  · intro doc i n
    rw [parse_image]
    by_cases h : optFalsy (imageOf doc) = true
    · rw [if_pos h]
      rfl
    · rw [if_neg h]
      cases him : imageOf doc with
      | none => exact absurd (by simp [optFalsy, him]) h
      | some s => rfl
  · intro doc i n him
    rw [parse_image, if_pos (by simp [optFalsy, him])]
  · intro i n
    rfl

theorem c7_parse_total_defaults_witness :
    ((parse_card_page emptyDoc 5 "Kuriboh").image).isSome = true ∧
    (parse_card_page emptyDoc 5 "Kuriboh").image = some (placeholderImage 5) :=
  ⟨c7_parse_total_defaults.1 emptyDoc 5 "Kuriboh",
   c7_parse_total_defaults.2.1 emptyDoc 5 "Kuriboh" rfl⟩

/-! ### C3 — the validation decision ladder -/

/-- A page titled exactly as the expected card. -/
def c3ExactDoc : Document :=
  { title := some "Dark Magician", infobox := none, cardTable := none,
    classImg := none, anchorImg := none, loreDiv := none }

/-- A page whose title contains the expected name with extra text. -/
def c3PartialDoc : Document :=
  { title := some "Dark Magician (Anime)", infobox := none, cardTable := none,
    classImg := none, anchorImg := none, loreDiv := none }

/-- A page title sharing exactly 3 of the 4 significant expected words. -/
def c3Doc3of4 : Document :=
  { title := some "alpha bravo charlie omega", infobox := none, cardTable := none,
    classImg := none, anchorImg := none, loreDiv := none }

/-- A page title sharing exactly 2 of the 4 significant expected words. -/
def c3Doc2of4 : Document :=
  { title := some "alpha bravo omega sigma", infobox := none, cardTable := none,
    classImg := none, anchorImg := none, loreDiv := none }

/-- C3: for documents with an extractable title of length at least 2, the
verdict of `validate_card_match` is exactly the ordered ladder stated by the
specification (`specValidationLadder`); in particular titles matching
exactly, by containment, sharing 3 of 4 significant words (ratio 0.75) are
accepted with the corresponding reasons, and sharing 2 of 4 (ratio 0.50) is
rejected. -/
theorem c3_validation_ladder :
    (∀ (doc : Document) (t en : String),
      doc.title = some t → ¬(t = "" ∨ t.length < 2) →
      (validate_card_match doc en).1 = specValidationLadder t en) ∧
    validate_card_match c3ExactDoc "Dark Magician" = (true, MatchReason.exactMatch) ∧
    validate_card_match c3PartialDoc "Dark Magician" = (true, MatchReason.containment) ∧
    validate_card_match c3Doc3of4 "alpha bravo charlie delta" =
      (true, MatchReason.highOverlap) ∧
    validate_card_match c3Doc2of4 "alpha bravo charlie delta" =
      (false, MatchReason.lowOverlap) := by
  refine ⟨?_, by decide, by decide, by decide, by decide⟩
  intro doc t en ht hlen
  simp only [validate_card_match, specValidationLadder, ht]
  rw [if_neg hlen]
  by_cases h1 : normalize_name t = normalize_name en
  · rw [if_pos h1, if_pos h1]
  · rw [if_neg h1, if_neg h1]
    by_cases h2 : (containsStr (normalize_name t) (normalize_name en) ||
        containsStr (normalize_name en) (normalize_name t)) = true
    · rw [if_pos h2, if_pos h2]
    · rw [if_neg h2, if_neg h2]
      by_cases h3 : sigWords (normalize_name en) = ∅
      · rw [if_pos h3, if_pos h3]
      · rw [if_neg h3, if_neg h3]
        by_cases h4 : 3 * (sigWords (normalize_name en)).card ≤
            4 * (sigWords (normalize_name en) ∩ sigWords (normalize_name t)).card
        · rw [if_pos h4]
          simp [h4]
        · rw [if_neg h4]
          simp [h4]

theorem c3_validation_ladder_witness :
    (validate_card_match c3Doc3of4 "alpha bravo charlie delta").1 =
      specValidationLadder "alpha bravo charlie omega" "alpha bravo charlie delta" :=
  c3_validation_ladder.1 c3Doc3of4 "alpha bravo charlie omega" "alpha bravo charlie delta"
    rfl (by decide)

/-! ### C5 — normalize_name: idempotence and character classes -/

/-- C5 counterexample: the underscore is neither alphanumeric nor whitespace
yet survives normalization unchanged (the source regex treats it as a word
character), so the result is not punctuation-free in the claimed sense. -/
theorem c5_normalize_cex :
    normalize_name "a_b" = "a_b" ∧ '_' ∈ (normalize_name "a_b").toList ∧
    '_'.isAlphanum = false ∧ isPySpace '_' = false := by
  decide

/-- C5 (amended): `normalize_name` is idempotent, and every character of its
output is alphanumeric, an underscore, or a space — every character that is
not alphanumeric, not an underscore and not whitespace is replaced by a
space. -/
theorem c5_normalize (s : String) :
    normalize_name (normalize_name s) = normalize_name s ∧
    ((normalize_name s).toList.all
      (fun c => c.isAlphanum || c = '_' || c = ' ')) = true := by
  constructor
  · unfold normalize_name
    have h1 : (String.mk (normChars s.toList)).toList = normChars s.toList := rfl
    rw [h1, normChars_idem]
  · rw [List.all_eq_true]
    intro c hc
    have hg : GoodChar c := normChars_good c hc
    rcases hg with rfl | ⟨hw, _⟩
    · simp
    · have : (c.isAlphanum || decide (c = '_')) = true := by
        simpa [isWordChar] using hw
      rcases Bool.or_eq_true_iff.mp this with h' | h' <;> simp [h']

/-! ### C6 — URL pattern list: non-empty and duplicate-free -/

/-- C6: for every non-empty card name the generated URL candidate list is
non-empty and contains no duplicate strings (deduplication is by exact
pattern-string equality in first-seen order). -/
theorem c6_patterns_nodup_nonempty (card_name : String) (_h : card_name ≠ "") :
    (get_card_url_patterns card_name).Nodup ∧ get_card_url_patterns card_name ≠ [] :=
  get_card_url_patterns_nodup_nonempty card_name

theorem c6_patterns_witness :
    (get_card_url_patterns "Winged Dragon, Guardian of the Fortress #1").Nodup ∧
    get_card_url_patterns "Winged Dragon, Guardian of the Fortress #1" ≠ [] :=
  c6_patterns_nodup_nonempty "Winged Dragon, Guardian of the Fortress #1" (by decide)

/-! ### C8 — migration runner: skip, stop, ledger consistency -/

/-- C8: an already-applied version is skipped with no state change and the
run continues; a failing migration (not yet applied, not a dry run) leaves
the ledger untouched — no record is written for it — and the run stops
immediately with exit code 1, never attempting later migrations. -/
theorem c8_migration_runner :
    (∀ (st : MigState) (m : Migration) (rest : List Migration) (d : Bool),
      m.version ∈ st.ledger →
        run_migration st m d = (st, true) ∧
        runAllMigrations st (m :: rest) d = runAllMigrations st rest d) ∧
    (∀ (st : MigState) (m : Migration) (rest : List Migration),
      m.version ∉ st.ledger → m.ok = false →
        run_migration st m false = (st, false) ∧
        runAllMigrations st (m :: rest) false = (st, 1)) := by
  constructor
  · intro st m rest d hm
    have h1 : run_migration st m d = (st, true) := by
      unfold run_migration check_migration_applied
      rw [if_pos (by simp [hm])]
    refine ⟨h1, ?_⟩
    show (match run_migration st m d with
          | (st2, true) => runAllMigrations st2 rest d
          | (st2, false) => (st2, 1)) = runAllMigrations st rest d
    rw [h1]
  · intro st m rest hm hok
    have h1 : run_migration st m false = (st, false) := by
      unfold run_migration check_migration_applied
      rw [if_neg (by simp [hm]), if_neg (by simp), if_neg (by simp [hok])]
    refine ⟨h1, ?_⟩
    show (match run_migration st m false with
          | (st2, true) => runAllMigrations st2 rest false
          | (st2, false) => (st2, 1)) = (st, 1)
    rw [h1]

theorem c8_migration_runner_witness :
    run_migration ⟨[1]⟩ ⟨1, "initial_schema", true⟩ false = (⟨[1]⟩, true) ∧
    runAllMigrations ⟨[1]⟩ [⟨1, "initial_schema", true⟩, ⟨2, "seed", true⟩] false =
      runAllMigrations ⟨[1]⟩ [⟨2, "seed", true⟩] false ∧
    run_migration ⟨[1]⟩ ⟨2, "broken", false⟩ false = (⟨[1]⟩, false) ∧
    runAllMigrations ⟨[1]⟩ [⟨2, "broken", false⟩, ⟨3, "later", true⟩] false = (⟨[1]⟩, 1) :=
  ⟨(c8_migration_runner.1 ⟨[1]⟩ ⟨1, "initial_schema", true⟩ [⟨2, "seed", true⟩] false
      (by decide)).1,
   (c8_migration_runner.1 ⟨[1]⟩ ⟨1, "initial_schema", true⟩ [⟨2, "seed", true⟩] false
      (by decide)).2,
   (c8_migration_runner.2 ⟨[1]⟩ ⟨2, "broken", false⟩ [⟨3, "later", true⟩]
      (by decide) rfl).1,
   (c8_migration_runner.2 ⟨[1]⟩ ⟨2, "broken", false⟩ [⟨3, "later", true⟩]
      (by decide) rfl).2⟩

/-! ### C9 — acceptance is monotone in the title's significant words -/

/-- C9: whenever every significant word of the expected name occurs among
the title's significant words, the validator accepts — extra unrelated text
in the page title can never cause rejection. -/
theorem c9_overlap_monotone (doc : Document) (t en : String)
    (ht : doc.title = some t) (hlen : ¬(t = "" ∨ t.length < 2))
    (hsub : sigWords (normalize_name en) ⊆ sigWords (normalize_name t)) :
    (validate_card_match doc en).1 = true := by
  simp only [validate_card_match, ht]
  rw [if_neg hlen]
  by_cases h1 : normalize_name t = normalize_name en
  · rw [if_pos h1]
  · rw [if_neg h1]
    by_cases h2 : (containsStr (normalize_name t) (normalize_name en) ||
        containsStr (normalize_name en) (normalize_name t)) = true
    · rw [if_pos h2]
    · rw [if_neg h2]
      by_cases h3 : sigWords (normalize_name en) = ∅
      · rw [if_pos h3]
      · rw [if_neg h3]
        rw [if_pos ?_]
        rw [Finset.inter_eq_left.mpr hsub]
        omega

/-- A title with extra words covering all significant expected words. -/
def c9Doc : Document :=
  { title := some "Blue-Eyes White Dragon (anime)", infobox := none,
    cardTable := none, classImg := none, anchorImg := none, loreDiv := none }

theorem c9_overlap_monotone_witness :
    (validate_card_match c9Doc "Blue Eyes Dragon").1 = true :=
  c9_overlap_monotone c9Doc "Blue-Eyes White Dragon (anime)" "Blue Eyes Dragon"
    rfl (by decide) (by decide)

/-! ### C10 — pattern variants collapse for plain names -/

/-- Decidable check that no two adjacent characters both satisfy `p`. -/
def noTwoAdjacent (p : Char → Bool) : List Char → Bool
  | [] => true
  | [_] => true
  | a :: b :: t => !(p a && p b) && noTwoAdjacent p (b :: t)

theorem noTwoAdjacent_chain' {p : Char → Bool} : ∀ {l : List Char},
    noTwoAdjacent p l = true → l.Chain' (fun a b => ¬(p a = true ∧ p b = true))
  | [], _ => by simp
  | [a], _ => List.chain'_singleton a
  | a :: b :: t, h => by
    have h' : (!(p a && p b)) = true ∧ noTwoAdjacent p (b :: t) = true := by
      simpa [noTwoAdjacent] using h
    rw [List.chain'_cons']
    constructor
    · intro y hy
      simp at hy
      subst hy
      intro ⟨hpa, hpb⟩
      have := h'.1
      rw [hpa, hpb] at this
      exact absurd this (by decide)
    · exact noTwoAdjacent_chain' h'.2

/-- C10: for a card name containing none of `#`, `,`, `'`, `"`, `_` and with
no two consecutive whitespace characters, all six pattern transformations
coincide, so the generator returns exactly one candidate URL — the name with
spaces replaced by underscores. -/
theorem c10_single_pattern (card_name : String)
    (h1 : ∀ c ∈ card_name.toList, ¬(c = '#' ∨ c = ',' ∨ c = '\'' ∨ c = '"' ∨ c = '_'))
    (h2 : noTwoAdjacent isPySpace card_name.toList = true) :
    get_card_url_patterns card_name = [urlOfPattern (replSpace card_name.toList)] := by
  obtain ⟨e1, e2, e3, e4, e5, e6⟩ := patterns_collapse h1 (noTwoAdjacent_chain' h2)
  unfold get_card_url_patterns
  rw [e1, e2, e3, e4, e5, e6]
  exact foldl_six_same (replSpace card_name.toList)

theorem c10_single_pattern_witness :
    get_card_url_patterns "Dark Magician" =
      [urlOfPattern (replSpace ("Dark Magician").toList)] :=
  c10_single_pattern "Dark Magician" (by decide) (by decide)

end Yugioh
